import Mathlib

/-!
# GameplayMechanics: the throwable-axe return mechanic

A shallow embedding of `AGameplayMechanicsCharacter` from
`Source/GameplayMechanics/GameplayMechanicsCharacter.cpp`:
`Tick`, `ReturnAxe`, `ThrowAxe`, `BQCurvePath`, `AxeReturnPath` and `Attack`.

Conventions of the embedding.

* `float` is modelled by `ℚ`.  `Tick` and `AxeReturnPath` carry out
  `time += deltatime` exactly; `Tick32` and `AxeReturnPath32` are the same code
  with that addition rounded to binary32 (round to nearest, ties to even), as
  the member `float time` has it.  Statements about sums of frame times are
  made on `Tick32`.  Frame times are finite; overflow to infinity is not
  modelled (it needs a magnitude of `2^128`).
* `ThrownAxe` is a pointer that may be null: `Option AActor`.  Dereferencing a
  null `ThrownAxe` (in `ReturnAxe`) has no successor state: the operation
  returns `none`.
* `AxeMesh`, `AxePath`, `FollowCamera` and the rotating-movement component of
  the spawned actor are components set up by the constructor, `BeginPlay` and
  the blueprint; they are taken to be present, and only the values the code
  reads from them (world locations, forward vector, rotation, visibility) are
  kept as fields.
* `Destroy()` marks the actor as destroyed; the source never assigns
  `ThrownAxe` after that, so the handle keeps pointing at the destroyed actor.
* Calls into the engine (montages, spawning, `SetActorLocation`, ...) are
  appended to `events`, in program order, together with each evaluation of
  `BQCurvePath` made by `AxeReturnPath`.
-/

namespace GameplayMechanics

/-- The `FVector` of the engine, with exact components. -/
@[ext]
structure FVector where
  X : ℚ
  Y : ℚ
  Z : ℚ
deriving DecidableEq, Repr

/-- The `FRotator` of the engine, with exact components. -/
structure FRotator where
  Pitch : ℚ
  Yaw : ℚ
  Roll : ℚ
deriving DecidableEq, Repr

/-- Componentwise `FVector + FVector`. -/
instance : Add FVector := ⟨fun a b => ⟨a.X + b.X, a.Y + b.Y, a.Z + b.Z⟩⟩

/-- Scaling `float * FVector`. -/
instance : HMul ℚ FVector FVector := ⟨fun k v => ⟨k * v.X, k * v.Y, k * v.Z⟩⟩

/-- Scaling `FVector * float`. -/
instance : HMul FVector ℚ FVector := ⟨fun v k => ⟨v.X * k, v.Y * k, v.Z * k⟩⟩

/-- Embeds `AGameplayMechanicsCharacter::BQCurvePath` (lines 121-128). -/
def BQCurvePath (t : ℚ) (v1 v2 v3 : FVector) : FVector :=
  let u : ℚ := 1 - t
  let tt : ℚ := t * t
  let uu : ℚ := u * u
  let p : FVector := (uu * v1) + ((2 * u * t : ℚ) * v2) + (tt * v3)
  p

/-- The spawned axe actor (`AActor* ThrownAxe` points at one): its world
location, the `RotationRate` of its `URotatingMovementComponent`, and whether
`Destroy()` has been called on it. -/
structure AActor where
  location : FVector
  RotationRate : FRotator
  destroyed : Bool
deriving DecidableEq, Repr

/-- Calls made by the character into the engine, in program order. -/
inductive Event where
  | logAttacking
  | setActorRotation (r : FRotator)
  | playThrowMontage
  | playCatchMontage
  | setVisibility (visible : Bool)
  | spawnActor (location : FVector) (rotation : FRotator)
  | callBQCurvePath (t : ℚ)
  | setActorLocation (p : FVector)
  | setRotationRate (r : FRotator)
  | destroyActor
deriving DecidableEq, Repr

/-- The members of `AGameplayMechanicsCharacter` that the axe mechanic reads or
writes.  `ActorLocation` is what `GetActorLocation()` returns;
`AxeMeshLocation`, `AxePathLocation` and the three camera fields are what
`GetComponentLocation`, `GetForwardVector` and `GetComponentRotation` return
for `AxeMesh`, `AxePath` and `FollowCamera`. -/
structure Character where
  InHand : Bool
  isReturning : Bool
  time : ℚ
  initialAxePos : FVector
  ThrownAxe : Option AActor
  AxeRotatingRate : FRotator
  ActorLocation : FVector
  AxeMeshVisible : Bool
  AxeMeshLocation : FVector
  AxePathLocation : FVector
  CameraLocation : FVector
  CameraForward : FVector
  CameraRotation : FRotator
  events : List Event
deriving DecidableEq, Repr

/-- Embeds `AGameplayMechanicsCharacter::ReturnAxe` (lines 103-107); `none` is the
null dereference of `ThrownAxe`. -/
def ReturnAxe (s : Character) : Option Character :=
  match s.ThrownAxe with
  | none => none
  | some axe => some { s with initialAxePos := axe.location, isReturning := true }

/-- Embeds `AGameplayMechanicsCharacter::ThrowAxe` (lines 109-119); `spawned` is what
`GetWorld()->SpawnActor` returns (null when spawning fails). -/
def ThrowAxe (s : Character) (spawned : Option AActor) : Character :=
  let SpawnLocation : FVector := s.CameraLocation + s.CameraForward * (150 : ℚ)
  let SpawnRotation : FRotator := s.CameraRotation
  { s with
    AxeMeshVisible := false
    ThrownAxe := spawned
    InHand := false
    events := s.events ++ [Event.setVisibility false, Event.spawnActor SpawnLocation SpawnRotation] }

/-- First block of `AxeReturnPath` (lines 134-142), entered with the non-null
`ThrownAxe` pointing at `axe`.  The sum `time += deltatime` is exact here;
`AxeReturnPath.move32` is the same block with the binary32 sum. -/
def AxeReturnPath.move (s : Character) (axe : AActor) (deltatime : ℚ) : Character :=
  if s.time ≤ 1 then
    let p := BQCurvePath s.time s.initialAxePos s.AxePathLocation s.AxeMeshLocation
    { s with
      ThrownAxe := some { axe with location := p, RotationRate := s.AxeRotatingRate }
      time := s.time + deltatime
      events := s.events ++ [Event.callBQCurvePath s.time, Event.setActorLocation p,
        Event.setRotationRate s.AxeRotatingRate] }
  else s

/-- Second block of `AxeReturnPath` (lines 144-153). -/
def AxeReturnPath.catch (s : Character) : Character :=
  if s.time ≥ 1 then
    { s with
      ThrownAxe := s.ThrownAxe.map (fun axe => { axe with destroyed := true })
      InHand := true
      AxeMeshVisible := true
      isReturning := false
      time := 0
      events := s.events ++ [Event.playCatchMontage, Event.destroyActor, Event.setVisibility true] }
  else s

/-- Embeds `AGameplayMechanicsCharacter::AxeReturnPath` (lines 130-154): the null
test of line 132, then the two blocks in order. -/
def AxeReturnPath (s : Character) (_location : FVector) (deltatime : ℚ) : Character :=
  match s.ThrownAxe with
  | none => s
  | some axe => AxeReturnPath.catch (AxeReturnPath.move s axe deltatime)

/-- Embeds `AGameplayMechanicsCharacter::Tick` (lines 95-101). -/
def Tick (s : Character) (DeltaSeconds : ℚ) : Character :=
  if s.isReturning then AxeReturnPath s s.ActorLocation DeltaSeconds else s

/-- Embeds `AGameplayMechanicsCharacter::RotateToCameraForward` (lines 263-269). -/
def RotateToCameraForward (s : Character) : Character :=
  let camerarotation : FRotator := { s.CameraRotation with Pitch := 0 }
  { s with events := s.events ++ [Event.setActorRotation camerarotation] }

/-- Embeds `AGameplayMechanicsCharacter::Attack` (lines 227-241); `CanJump` is the
value returned by `CanJump()`. -/
def Attack (s : Character) (CanJump : Bool) : Option Character :=
  let s := { s with events := s.events ++ [Event.logAttacking] }
  if !CanJump then some s
  else if !s.InHand then ReturnAxe s
  else
    let s := RotateToCameraForward s
    some { s with events := s.events ++ [Event.playThrowMontage] }

/-- One call made on the character: the throw (`ThrowAxe`, with the result of
`SpawnActor`), the return request (`ReturnAxe` directly), the attack input
(`Attack`, with the value of `CanJump()`), the per-frame `Tick`, and the engine
moving things between calls (physics moving or the garbage collector clearing
`ThrownAxe`, the character moving its attached components and camera). -/
inductive Step where
  | throwAxe (spawned : Option AActor)
  | returnAxe
  | attack (CanJump : Bool)
  | tick (DeltaSeconds : ℚ)
  | engine (axe : Option AActor) (actor mesh path cam fwd : FVector) (rot : FRotator)
deriving DecidableEq, Repr

/-- Effect of one call. -/
def step (s : Character) : Step → Option Character
  | Step.throwAxe spawned => some (ThrowAxe s spawned)
  | Step.returnAxe => ReturnAxe s
  | Step.attack CanJump => Attack s CanJump
  | Step.tick dt => some (Tick s dt)
  | Step.engine axe actor mesh path cam fwd rot =>
    some { s with
      ThrownAxe := axe
      ActorLocation := actor
      AxeMeshLocation := mesh
      AxePathLocation := path
      CameraLocation := cam
      CameraForward := fwd
      CameraRotation := rot }

/-- Effect of a sequence of calls; `none` as soon as one dereferences null. -/
def run (s : Character) : List Step → Option Character
  | [] => some s
  | st :: rest => (step s st).bind (fun s1 => run s1 rest)

/-- Whether a call, if it is a `Tick`, has a non-negative frame time. -/
def Step.nonneg : Step → Bool
  | Step.tick dt => decide (0 ≤ dt)
  | _ => true

/-- Whether a call comes through the input or the frame loop, that is, is not
a direct call of `ReturnAxe`. -/
def Step.viaInput : Step → Bool
  | Step.returnAxe => false
  | _ => true

/-- Whether no call is a direct call of `ReturnAxe`: return requests are made
through `Attack` only. -/
def returnsViaAttack (steps : List Step) : Bool :=
  steps.all Step.viaInput

/-- Whether every `Tick` among the calls has a non-negative frame time. -/
def nonnegTicks (steps : List Step) : Bool :=
  steps.all Step.nonneg

/-- The character as the constructor leaves it (line 55: `InHand = true`; the
other members are zero-initialised), with the in-hand axe visible and the
components placed as given. -/
def spawnCharacter (actor mesh path cam fwd : FVector) (rot rate : FRotator) : Character :=
  { InHand := true
    isReturning := false
    time := 0
    initialAxePos := ⟨0, 0, 0⟩
    ThrownAxe := none
    AxeRotatingRate := rate
    ActorLocation := actor
    AxeMeshVisible := true
    AxeMeshLocation := mesh
    AxePathLocation := path
    CameraLocation := cam
    CameraForward := fwd
    CameraRotation := rot
    events := [] }

/-- A concrete scene: the character at the origin looking along `X`, the
in-hand axe mesh at `(10, 0, 0)` and the path control point at `(60, 0, 40)`. -/
def demoCharacter : Character :=
  spawnCharacter ⟨0, 0, 0⟩ ⟨10, 0, 0⟩ ⟨60, 0, 40⟩ ⟨0, 0, 0⟩ ⟨1, 0, 0⟩ ⟨0, 0, 0⟩ ⟨0, 0, 90⟩

/-- A freshly spawned axe, at the spawn location of `demoCharacter`. -/
def demoAxe : AActor :=
  { location := ⟨150, 0, 0⟩, RotationRate := ⟨0, 0, 0⟩, destroyed := false }

/-- The calls that bring `demoCharacter` to the middle of a return flight:
throw, return request, and two frames of `2/5`. -/
def demoCalls : List Step :=
  [Step.throwAxe (some demoAxe), Step.returnAxe, Step.tick (2 / 5), Step.tick (2 / 5)]

/-- The state `demoCharacter` is in after `demoCalls`: returning, progress
`4/5`, the axe at the curve point for `t = 2/5`. -/
def demoReturning : Character :=
  { InHand := false
    isReturning := true
    time := 4 / 5
    initialAxePos := ⟨150, 0, 0⟩
    ThrownAxe := some { location := ⟨422 / 5, 0, 96 / 5⟩, RotationRate := ⟨0, 0, 90⟩,
                        destroyed := false }
    AxeRotatingRate := ⟨0, 0, 90⟩
    ActorLocation := ⟨0, 0, 0⟩
    AxeMeshVisible := false
    AxeMeshLocation := ⟨10, 0, 0⟩
    AxePathLocation := ⟨60, 0, 40⟩
    CameraLocation := ⟨0, 0, 0⟩
    CameraForward := ⟨1, 0, 0⟩
    CameraRotation := ⟨0, 0, 0⟩
    events :=
      [Event.setVisibility false, Event.spawnActor ⟨150, 0, 0⟩ ⟨0, 0, 0⟩,
       Event.callBQCurvePath 0, Event.setActorLocation ⟨150, 0, 0⟩,
       Event.setRotationRate ⟨0, 0, 90⟩,
       Event.callBQCurvePath (2 / 5), Event.setActorLocation ⟨422 / 5, 0, 96 / 5⟩,
       Event.setRotationRate ⟨0, 0, 90⟩] }

/-- The state `demoCharacter` is in after a throw that spawns `demoAxe` and a
return request: returning, progress `0`. -/
def demoReturnStart : Character :=
  { InHand := false
    isReturning := true
    time := 0
    initialAxePos := ⟨150, 0, 0⟩
    ThrownAxe := some demoAxe
    AxeRotatingRate := ⟨0, 0, 90⟩
    ActorLocation := ⟨0, 0, 0⟩
    AxeMeshVisible := false
    AxeMeshLocation := ⟨10, 0, 0⟩
    AxePathLocation := ⟨60, 0, 40⟩
    CameraLocation := ⟨0, 0, 0⟩
    CameraForward := ⟨1, 0, 0⟩
    CameraRotation := ⟨0, 0, 0⟩
    events := [Event.setVisibility false, Event.spawnActor ⟨150, 0, 0⟩ ⟨0, 0, 0⟩] }

/-- The state `demoCharacter` is in after a throw, a return request and one
frame of a full time unit: caught, with the handle still pointing at the
destroyed actor. -/
def demoCaught : Character :=
  { InHand := true
    isReturning := false
    time := 0
    initialAxePos := ⟨150, 0, 0⟩
    ThrownAxe := some { location := ⟨150, 0, 0⟩, RotationRate := ⟨0, 0, 90⟩,
                        destroyed := true }
    AxeRotatingRate := ⟨0, 0, 90⟩
    ActorLocation := ⟨0, 0, 0⟩
    AxeMeshVisible := true
    AxeMeshLocation := ⟨10, 0, 0⟩
    AxePathLocation := ⟨60, 0, 40⟩
    CameraLocation := ⟨0, 0, 0⟩
    CameraForward := ⟨1, 0, 0⟩
    CameraRotation := ⟨0, 0, 0⟩
    events :=
      [Event.setVisibility false, Event.spawnActor ⟨150, 0, 0⟩ ⟨0, 0, 0⟩,
       Event.callBQCurvePath 0, Event.setActorLocation ⟨150, 0, 0⟩,
       Event.setRotationRate ⟨0, 0, 90⟩,
       Event.playCatchMontage, Event.destroyActor, Event.setVisibility true] }

/-- Number of catch cues (`PlayAnimMontage(CatchMontage)`) fired so far. -/
def catchCount (s : Character) : Nat :=
  s.events.count Event.playCatchMontage

/-- Rounding of a rational to the nearest integer, ties to the even one. -/
def roundHalfEven (y : ℚ) : ℤ :=
  let f : ℤ := ⌊y⌋
  if y - f < 1 / 2 then f
  else if 1 / 2 < y - f then f + 1
  else if f % 2 = 0 then f else f + 1

/-- The binary32 exponent of `x`: the `e` with `2^e ≤ |x| < 2^(e+1)`, and `-126`
for the subnormal range and zero. -/
def f32exponent (x : ℚ) : ℤ :=
  max (Int.log 2 |x|) (-126)

/-- Rounding of a rational to binary32: to the nearest multiple of
`2^(e - 23)`, a significand of 24 bits, ties to even. -/
def f32round (x : ℚ) : ℚ :=
  (roundHalfEven (x / 2 ^ (f32exponent x - 23)) : ℚ) * 2 ^ (f32exponent x - 23)

/-- The binary32 sum `a + b` of two `float` values. -/
def f32add (a b : ℚ) : ℚ :=
  f32round (a + b)

/-- First block of `AxeReturnPath` (lines 134-142) with `time += deltatime`
carried out in binary32 (`float time`, line 93 of the header).  The curve
point is still evaluated exactly; the statements made on this definition read
the flags, the progress and the recorded calls, not the position. -/
def AxeReturnPath.move32 (s : Character) (axe : AActor) (deltatime : ℚ) : Character :=
  if s.time ≤ 1 then
    let p := BQCurvePath s.time s.initialAxePos s.AxePathLocation s.AxeMeshLocation
    { s with
      ThrownAxe := some { axe with location := p, RotationRate := s.AxeRotatingRate }
      time := f32add s.time deltatime
      events := s.events ++ [Event.callBQCurvePath s.time, Event.setActorLocation p,
        Event.setRotationRate s.AxeRotatingRate] }
  else s

/-- Embeds `AGameplayMechanicsCharacter::AxeReturnPath` (lines 130-154) with the
progress accumulated in binary32. -/
def AxeReturnPath32 (s : Character) (_location : FVector) (deltatime : ℚ) : Character :=
  match s.ThrownAxe with
  | none => s
  | some axe => AxeReturnPath.catch (AxeReturnPath.move32 s axe deltatime)

/-- Embeds `AGameplayMechanicsCharacter::Tick` (lines 95-101) with the progress
accumulated in binary32. -/
def Tick32 (s : Character) (DeltaSeconds : ℚ) : Character :=
  if s.isReturning then AxeReturnPath32 s s.ActorLocation DeltaSeconds else s

/-- A run of `Tick32` calls, one per frame. -/
def ticks32 (s : Character) (dts : List ℚ) : Character :=
  dts.foldl Tick32 s

/-- The value `time` has after the frame times `dts` have been added to `p`
one by one in binary32. -/
def progress32 (p : ℚ) (dts : List ℚ) : ℚ :=
  dts.foldl f32add p

/-- The binary32 value `1 - 2^-24`, the largest `float` below `1`. -/
def frameNearOne : ℚ := 16777215 / 16777216

/-- The binary32 value `2^-25`. -/
def frameHalfUlp : ℚ := 1 / 33554432

/-- The binary32 value `2^-26`. -/
def frameQuarterUlp : ℚ := 1 / 67108864

/-- Three non-negative frame times with exact sum `1`. -/
def earlyFrames : List ℚ := [frameNearOne, frameHalfUlp, frameHalfUlp]

/-- Five non-negative frame times with exact sum `1`. -/
def stuckFrames : List ℚ :=
  [frameNearOne, frameQuarterUlp, frameQuarterUlp, frameQuarterUlp, frameQuarterUlp]

/-- The flight of `dts` from `s` is caught at most once, by the first frame
that brings the accumulated binary32 progress to `1` or more.  First part: if
frame `n` is the first after which the accumulated progress is at least `1`,
then after every earlier frame the character is still returning with no catch
fired, frame `n` performs the catch transition (catch cue, projectile
destroyed, in-hand mesh shown, `InHand` set, `isReturning` cleared, progress
`0`), later frames change nothing, and exactly one catch cue is fired in all.
Second part: if the accumulated progress stays below `1` throughout, the
character is still returning after every frame and no catch cue is fired. -/
def CaughtAtFirstCrossing (s : Character) (dts : List ℚ) : Prop :=
  (∀ n, n < dts.length →
    (∀ k, k ≤ n → progress32 s.time (dts.take k) < 1) →
    1 ≤ progress32 s.time (dts.take (n + 1)) →
    (∀ k, k ≤ n →
      (ticks32 s (dts.take k)).InHand = false ∧
      (ticks32 s (dts.take k)).isReturning = true ∧
      catchCount (ticks32 s (dts.take k)) = catchCount s) ∧
    (ticks32 s (dts.take (n + 1))).InHand = true ∧
    (ticks32 s (dts.take (n + 1))).isReturning = false ∧
    (ticks32 s (dts.take (n + 1))).time = 0 ∧
    (ticks32 s (dts.take (n + 1))).AxeMeshVisible = true ∧
    (ticks32 s (dts.take (n + 1))).ThrownAxe.map (fun a => a.destroyed) = some true ∧
    catchCount (ticks32 s (dts.take (n + 1))) = catchCount s + 1 ∧
    (∀ k, n < k → ticks32 s (dts.take k) = ticks32 s (dts.take (n + 1))) ∧
    catchCount (ticks32 s dts) = catchCount s + 1) ∧
  ((∀ k, k ≤ dts.length → progress32 s.time (dts.take k) < 1) →
    ∀ k, k ≤ dts.length →
      (ticks32 s (dts.take k)).InHand = false ∧
      (ticks32 s (dts.take k)).isReturning = true ∧
      catchCount (ticks32 s (dts.take k)) = catchCount s)

/-! ## Componentwise reading of the vector operations -/

@[simp]
theorem FVector.add_X (a b : FVector) : (a + b).X = a.X + b.X := rfl
@[simp]
theorem FVector.add_Y (a b : FVector) : (a + b).Y = a.Y + b.Y := rfl
@[simp]
theorem FVector.add_Z (a b : FVector) : (a + b).Z = a.Z + b.Z := rfl
@[simp]
theorem FVector.smul_X (k : ℚ) (v : FVector) : (k * v).X = k * v.X := rfl
@[simp]
theorem FVector.smul_Y (k : ℚ) (v : FVector) : (k * v).Y = k * v.Y := rfl
@[simp]
theorem FVector.smul_Z (k : ℚ) (v : FVector) : (k * v).Z = k * v.Z := rfl
@[simp]
theorem FVector.mul_X (v : FVector) (k : ℚ) : (v * k).X = v.X * k := rfl
@[simp]
theorem FVector.mul_Y (v : FVector) (k : ℚ) : (v * k).Y = v.Y * k := rfl
@[simp]
theorem FVector.mul_Z (v : FVector) (k : ℚ) : (v * k).Z = v.Z * k := rfl

/-! ## The return-path solver -/

/-- C1: for every scalar `t` (no clamping) and positions `start`, `control`,
`end`, `BQCurvePath t start control end` is
`(1-t)^2*start + 2*(1-t)*t*control + t^2*end` componentwise, and at `t = 1/2`
it is `1/4*start + 1/2*control + 1/4*end`. -/
theorem BQCurvePath_eq_bezier (t : ℚ) (start control finish : FVector) :
    BQCurvePath t start control finish =
      ⟨(1 - t) ^ 2 * start.X + 2 * (1 - t) * t * control.X + t ^ 2 * finish.X,
       (1 - t) ^ 2 * start.Y + 2 * (1 - t) * t * control.Y + t ^ 2 * finish.Y,
       (1 - t) ^ 2 * start.Z + 2 * (1 - t) * t * control.Z + t ^ 2 * finish.Z⟩ ∧
    BQCurvePath (1 / 2) start control finish =
      ((1 / 4 : ℚ) * start) + ((1 / 2 : ℚ) * control) + ((1 / 4 : ℚ) * finish) := by
  refine ⟨?_, ?_⟩ <;> ext <;> simp only [BQCurvePath, FVector.add_X, FVector.add_Y,
    FVector.add_Z, FVector.smul_X, FVector.smul_Y, FVector.smul_Z] <;> ring

/-! ## Evaluating the operations -/

theorem FVector.add_def (a b : FVector) : a + b = ⟨a.X + b.X, a.Y + b.Y, a.Z + b.Z⟩ := rfl

theorem FVector.smul_def (k : ℚ) (v : FVector) : k * v = ⟨k * v.X, k * v.Y, k * v.Z⟩ := rfl

theorem FVector.mul_def (v : FVector) (k : ℚ) : v * k = ⟨v.X * k, v.Y * k, v.Z * k⟩ := rfl

/-- At `t = 0` the curve is at its first anchor. -/
theorem BQCurvePath_zero (v1 v2 v3 : FVector) : BQCurvePath 0 v1 v2 v3 = v1 := by
  ext <;> simp [BQCurvePath]

/-- The list `demoCalls` really leads from `demoCharacter` to `demoReturning`. -/
theorem demoReturning_reached : run demoCharacter demoCalls = some demoReturning := by
  norm_num [run, step, demoCalls, ThrowAxe, ReturnAxe, Tick, AxeReturnPath, AxeReturnPath.move,
    AxeReturnPath.catch, demoCharacter, demoAxe, demoReturning, spawnCharacter, BQCurvePath,
    FVector.add_def, FVector.smul_def, FVector.mul_def]

/-- A `Tick` on a returning character with a non-null handle runs both blocks of
`AxeReturnPath`. -/
theorem Tick_returning (s : Character) (axe : AActor) (dt : ℚ)
    (hRet : s.isReturning = true) (hAxe : s.ThrownAxe = some axe) :
    Tick s dt = AxeReturnPath.catch (AxeReturnPath.move s axe dt) := by
  simp [Tick, AxeReturnPath, hRet, hAxe]

/-- The first block of `AxeReturnPath` does not write `isReturning`. -/
theorem AxeReturnPath.move_isReturning (s : Character) (axe : AActor) (dt : ℚ) :
    (AxeReturnPath.move s axe dt).isReturning = s.isReturning := by
  unfold AxeReturnPath.move
  split <;> rfl

/-- A `Tick` does nothing unless `isReturning` is set. -/
theorem Tick_not_returning (s : Character) (dt : ℚ) (hRet : s.isReturning = false) :
    Tick s dt = s := by
  simp [Tick, hRet]

/-! ## The per-frame advance -/

/-- C8: while returning with the projectile handle absent, an advance skips the
frame: `Tick` returns the state it was given, so the handle is not
dereferenced, no call is recorded (no position set, no catch cue), and
`InHand`, `isReturning`, progress and `initialAxePos` are unchanged. -/
theorem Tick_absent_handle_skips (s : Character) (dt : ℚ)
    (hRet : s.isReturning = true) (hAxe : s.ThrownAxe = none) :
    Tick s dt = s ∧ (Tick s dt).events = s.events ∧ (Tick s dt).ThrownAxe = none ∧
      (Tick s dt).InHand = s.InHand ∧ (Tick s dt).isReturning = true ∧
      (Tick s dt).time = s.time ∧ (Tick s dt).initialAxePos = s.initialAxePos := by
  have h : Tick s dt = s := by simp [Tick, AxeReturnPath, hRet, hAxe]
  rw [h]
  exact ⟨rfl, rfl, hAxe, rfl, hRet, rfl, rfl⟩

/-- Witness for C8: `demoReturning` with its handle cleared, advanced by `1/2`. -/
theorem Tick_absent_handle_skips_witness :
    ({ demoReturning with ThrownAxe := none } : Character).isReturning = true ∧
      Tick { demoReturning with ThrownAxe := none } (1 / 2) =
        { demoReturning with ThrownAxe := none } :=
  ⟨rfl, (Tick_absent_handle_skips { demoReturning with ThrownAxe := none } (1 / 2) rfl rfl).1⟩

/-! ## The first frame of a return -/

/-- C4 fails as stated: after throw, return request and one advance of `2/5`
from `demoCharacter`, the progress is `2/5` but the projectile sits at the
start of the curve `(150, 0, 0)`, not at the curve point for `t = 2/5`. -/
theorem first_advance_not_at_curve_point_dt :
    ∃ s, run demoCharacter
          [Step.throwAxe (some demoAxe), Step.returnAxe, Step.tick (2 / 5)] = some s ∧
      s.time = 2 / 5 ∧
      s.ThrownAxe.map (fun a => a.location) = some ⟨150, 0, 0⟩ ∧
      BQCurvePath (2 / 5) s.initialAxePos s.AxePathLocation s.AxeMeshLocation
        = ⟨422 / 5, 0, 96 / 5⟩ ∧
      s.ThrownAxe.map (fun a => a.location) ≠
        some (BQCurvePath (2 / 5) s.initialAxePos s.AxePathLocation s.AxeMeshLocation) := by
  refine ⟨_, rfl, ?_⟩
  norm_num [step, ThrowAxe, ReturnAxe, Tick, AxeReturnPath, AxeReturnPath.move,
    AxeReturnPath.catch, demoCharacter, demoAxe, spawnCharacter, BQCurvePath,
    FVector.add_def, FVector.smul_def, FVector.mul_def]

/-- C4 (amended): starting with progress `0`, after a throw that spawns `axe`,
a return request and a first advance of `dt` with `0 ≤ dt < 1`, the character
is returning with progress `dt`, and the projectile position is
`BQCurvePath 0 initialAxePos AxePath AxeMesh`, which is `initialAxePos`, the
position the projectile had when the return was requested. -/
theorem first_advance_of_fresh_return (s0 : Character) (axe : AActor) (dt : ℚ)
    (hIn : s0.InHand = true) (h0 : s0.time = 0) (hdt0 : 0 ≤ dt) (hdt1 : dt < 1) :
    ∃ s, run s0 [Step.throwAxe (some axe), Step.returnAxe, Step.tick dt] = some s ∧
      s.InHand = false ∧ s.isReturning = true ∧ s.time = dt ∧
      s.initialAxePos = axe.location ∧
      s.ThrownAxe.map (fun a => a.location) =
        some (BQCurvePath 0 s.initialAxePos s.AxePathLocation s.AxeMeshLocation) ∧
      BQCurvePath 0 s.initialAxePos s.AxePathLocation s.AxeMeshLocation = axe.location := by
  have hlt : ¬ (1 ≤ dt) := not_le.mpr hdt1
  refine ⟨_, rfl, ?_⟩
  simp [step, ThrowAxe, ReturnAxe, Tick, AxeReturnPath, AxeReturnPath.move,
    AxeReturnPath.catch, h0, hlt, BQCurvePath_zero]

/-- Witness for C4 (amended) at `demoCharacter`, `demoAxe` and `dt = 2/5`. -/
theorem first_advance_of_fresh_return_witness :
    demoCharacter.InHand = true ∧ demoCharacter.time = 0 ∧ (0 : ℚ) ≤ 2 / 5 ∧ (2 / 5 : ℚ) < 1 ∧
      ∃ s, run demoCharacter
            [Step.throwAxe (some demoAxe), Step.returnAxe, Step.tick (2 / 5)] = some s ∧
        s.InHand = false ∧ s.isReturning = true ∧ s.time = 2 / 5 ∧
        s.initialAxePos = demoAxe.location ∧
        s.ThrownAxe.map (fun a => a.location) =
          some (BQCurvePath 0 s.initialAxePos s.AxePathLocation s.AxeMeshLocation) ∧
        BQCurvePath 0 s.initialAxePos s.AxePathLocation s.AxeMeshLocation = demoAxe.location :=
  ⟨rfl, rfl, by norm_num, by norm_num,
    first_advance_of_fresh_return demoCharacter demoAxe (2 / 5) rfl rfl (by norm_num)
      (by norm_num)⟩

/-! ## Requests made in the wrong phase -/

/-- C5 fails as stated: after a complete throw-and-return cycle the character
is in hand and not returning, and the handle still points at the destroyed
actor; `ReturnAxe` called there succeeds and sets `isReturning`. -/
theorem ReturnAxe_in_hand_sets_isReturning :
    run demoCharacter [Step.throwAxe (some demoAxe), Step.returnAxe, Step.tick 1]
        = some demoCaught ∧
      demoCaught.InHand = true ∧ demoCaught.isReturning = false ∧
      ReturnAxe demoCaught = some { demoCaught with isReturning := true } ∧
      ({ demoCaught with isReturning := true } : Character).InHand = true ∧
      ({ demoCaught with isReturning := true } : Character).isReturning = true := by
  refine ⟨?_, rfl, rfl, rfl, rfl, rfl⟩
  norm_num [run, step, ThrowAxe, ReturnAxe, Tick, AxeReturnPath, AxeReturnPath.move,
    AxeReturnPath.catch, demoCharacter, demoAxe, demoCaught, spawnCharacter, BQCurvePath,
    FVector.add_def, FVector.smul_def, FVector.mul_def]

/-- C5 (amended): the `Attack` input never dispatches to `ReturnAxe` while
`InHand` is true: it leaves `InHand`, `isReturning`, progress, `initialAxePos`
and the handle as they were and only records the log line and, when the
character can act, the rotation and the throw cue.  `ReturnAxe` itself has no
guard: with a non-null handle it captures the position of the handle and sets
`isReturning`, whatever `InHand` is; with a null handle it dereferences null. -/
theorem Attack_in_hand_does_not_return (s : Character) (CanJump : Bool)
    (hIn : s.InHand = true) :
    (∃ s1, Attack s CanJump = some s1 ∧
      s1.InHand = true ∧ s1.isReturning = s.isReturning ∧ s1.time = s.time ∧
      s1.initialAxePos = s.initialAxePos ∧ s1.ThrownAxe = s.ThrownAxe ∧
      s1.events = s.events ++
        (if CanJump then
          [Event.logAttacking, Event.setActorRotation { s.CameraRotation with Pitch := 0 },
           Event.playThrowMontage]
         else [Event.logAttacking])) ∧
    (∀ axe, s.ThrownAxe = some axe →
      ReturnAxe s = some { s with initialAxePos := axe.location, isReturning := true }) ∧
    (s.ThrownAxe = none → ReturnAxe s = none) := by
  refine ⟨?_, ?_, ?_⟩
  · cases CanJump <;> simp [Attack, RotateToCameraForward, hIn]
  · intro axe h
    simp [ReturnAxe, h]
  · intro h
    simp [ReturnAxe, h]

/-- Witness for C5 (amended): `Attack` on the freshly constructed
`demoCharacter`, able to act. -/
theorem Attack_in_hand_does_not_return_witness :
    demoCharacter.InHand = true ∧
      ∃ s1, Attack demoCharacter true = some s1 ∧
        s1.InHand = true ∧ s1.isReturning = demoCharacter.isReturning ∧
        s1.time = demoCharacter.time ∧
        s1.initialAxePos = demoCharacter.initialAxePos ∧
        s1.ThrownAxe = demoCharacter.ThrownAxe ∧
        s1.events = demoCharacter.events ++
          (if true = true then
            [Event.logAttacking,
             Event.setActorRotation { demoCharacter.CameraRotation with Pitch := 0 },
             Event.playThrowMontage]
           else [Event.logAttacking]) :=
  ⟨rfl, (Attack_in_hand_does_not_return demoCharacter true rfl).1⟩

/-- C6 fails as stated: `ThrowAxe` called in the middle of a return flight
(`InHand` false) replaces the handle of the projectile in flight by the newly
spawned actor and records a `SpawnActor` call. -/
theorem ThrowAxe_not_in_hand_spawns :
    run demoCharacter demoCalls = some demoReturning ∧
      demoReturning.InHand = false ∧
      (ThrowAxe demoReturning (some demoAxe)).ThrownAxe ≠ demoReturning.ThrownAxe ∧
      (ThrowAxe demoReturning (some demoAxe)).events =
        demoReturning.events ++
          [Event.setVisibility false, Event.spawnActor ⟨150, 0, 0⟩ ⟨0, 0, 0⟩] := by
  refine ⟨demoReturning_reached, rfl, ?_, ?_⟩
  · norm_num [ThrowAxe, demoReturning, demoAxe]
  · norm_num [ThrowAxe, demoReturning, FVector.add_def, FVector.mul_def]

/-- C6 (amended): `ThrowAxe` called while `InHand` is false leaves `InHand`
false and `isReturning`, progress and `initialAxePos` unchanged, but it is not
a no-op: it hides the in-hand mesh, records a `SpawnActor` call at the camera
position plus `150` times the forward vector, and overwrites the handle with
the result of that call. -/
theorem ThrowAxe_not_in_hand (s : Character) (spawned : Option AActor)
    (hIn : s.InHand = false) :
    (ThrowAxe s spawned).InHand = s.InHand ∧
      (ThrowAxe s spawned).isReturning = s.isReturning ∧
      (ThrowAxe s spawned).time = s.time ∧
      (ThrowAxe s spawned).initialAxePos = s.initialAxePos ∧
      (ThrowAxe s spawned).ThrownAxe = spawned ∧
      (ThrowAxe s spawned).AxeMeshVisible = false ∧
      (ThrowAxe s spawned).events = s.events ++
        [Event.setVisibility false,
         Event.spawnActor (s.CameraLocation + s.CameraForward * (150 : ℚ)) s.CameraRotation] := by
  simp [ThrowAxe, hIn]

/-- Witness for C6 (amended) at `demoReturning`. -/
theorem ThrowAxe_not_in_hand_witness :
    demoReturning.InHand = false ∧
      (ThrowAxe demoReturning (some demoAxe)).ThrownAxe = some demoAxe ∧
      (ThrowAxe demoReturning (some demoAxe)).time = demoReturning.time :=
  ⟨rfl, (ThrowAxe_not_in_hand demoReturning (some demoAxe) rfl).2.2.2.2.1,
    (ThrowAxe_not_in_hand demoReturning (some demoAxe) rfl).2.2.1⟩

/-- C7 fails as stated: in the middle of a return flight, a repeated return
request through `Attack` moves `initialAxePos` from `(150, 0, 0)` to the
current position of the projectile, `(422/5, 0, 96/5)`. -/
theorem Attack_while_returning_moves_origin :
    run demoCharacter demoCalls = some demoReturning ∧
      demoReturning.InHand = false ∧ demoReturning.isReturning = true ∧
      ∃ s1, Attack demoReturning true = some s1 ∧
        demoReturning.initialAxePos = ⟨150, 0, 0⟩ ∧
        s1.initialAxePos = ⟨422 / 5, 0, 96 / 5⟩ ∧
        s1.initialAxePos ≠ demoReturning.initialAxePos := by
  refine ⟨demoReturning_reached, rfl, rfl, _, rfl, rfl, ?_⟩
  norm_num [Attack, ReturnAxe, demoReturning]

/-- C7 (amended): a return request made through `Attack` while returning
(`InHand` false, `isReturning` true, non-null handle) leaves progress, `InHand`,
`isReturning` and the handle exactly as they were; when the character can act
it overwrites `initialAxePos` with the current position of the projectile, and
otherwise leaves `initialAxePos` unchanged too. -/
theorem Attack_while_returning (s : Character) (axe : AActor) (CanJump : Bool)
    (hIn : s.InHand = false) (hRet : s.isReturning = true) (hAxe : s.ThrownAxe = some axe) :
    ∃ s1, Attack s CanJump = some s1 ∧
      s1.time = s.time ∧ s1.InHand = false ∧ s1.isReturning = true ∧
      s1.ThrownAxe = some axe ∧
      s1.initialAxePos = (if CanJump then axe.location else s.initialAxePos) := by
  cases CanJump <;> simp [Attack, ReturnAxe, hIn, hRet, hAxe]

/-- Witness for C7 (amended) at `demoReturning`. -/
theorem Attack_while_returning_witness :
    demoReturning.InHand = false ∧ demoReturning.isReturning = true ∧
      ∃ s1, Attack demoReturning true = some s1 ∧
        s1.time = demoReturning.time ∧ s1.InHand = false ∧ s1.isReturning = true ∧
        s1.ThrownAxe =
          some { location := ⟨422 / 5, 0, 96 / 5⟩, RotationRate := ⟨0, 0, 90⟩,
                 destroyed := false } ∧
        s1.initialAxePos =
          (if true = true then
            ({ location := ⟨422 / 5, 0, 96 / 5⟩, RotationRate := ⟨0, 0, 90⟩,
               destroyed := false } : AActor).location
           else demoReturning.initialAxePos) :=
  ⟨rfl, rfl, Attack_while_returning demoReturning _ true rfl rfl rfl⟩

/-! ## Invariants of reachable states -/

/-- A successful `run` decomposes call by call. -/
theorem run_cons (s : Character) (st : Step) (rest : List Step) (s2 : Character) :
    run s (st :: rest) = some s2 ↔ ∃ s1, step s st = some s1 ∧ run s1 rest = some s2 := by
  simp [run, Option.bind_eq_some]

/-- A property kept by every call holds after every run. -/
theorem run_induction (P : Character → Prop)
    (hstep : ∀ s st s1, P s → step s st = some s1 → P s1) :
    ∀ (steps : List Step) (s s2 : Character), P s → run s steps = some s2 → P s2 := by
  intro steps
  induction steps with
  | nil =>
    intro s s2 hP h
    simp [run] at h
    exact h ▸ hP
  | cons st rest ih =>
    intro s s2 hP h
    obtain ⟨s1, h1, h2⟩ := (run_cons s st rest s2).mp h
    exact ih s1 s2 (hstep s st s1 hP h1) h2

/-- Progress is `0` whenever `isReturning` is clear: kept by every call. -/
theorem idle_progress_step (s : Character) (st : Step) (s1 : Character)
    (hP : s.isReturning = false → s.time = 0) (h : step s st = some s1) :
    s1.isReturning = false → s1.time = 0 := by
  cases st with
  | throwAxe spawned =>
    simp [step, ThrowAxe] at h
    subst h
    simpa using hP
  | returnAxe =>
    simp only [step, ReturnAxe] at h
    split at h
    · simp at h
    · simp at h
      subst h
      simp
  | attack CanJump =>
    simp only [Attack, step, ReturnAxe, RotateToCameraForward] at h
    split at h
    · simp at h
      subst h
      simpa using hP
    · split at h
      · split at h
        · simp at h
        · simp at h
          subst h
          simp
      · simp at h
        subst h
        simpa using hP
  | tick dt =>
    simp only [step, Option.some.injEq] at h
    subst h
    cases hret : s.isReturning with
    | false =>
      rw [Tick_not_returning s dt hret]
      exact hP
    | true =>
      cases hax : s.ThrownAxe with
      | none =>
        intro hr
        simp [Tick, AxeReturnPath, hret, hax] at hr
      | some axe =>
        rw [Tick_returning s axe dt hret hax]
        unfold AxeReturnPath.catch
        split
        · simp
        · rw [AxeReturnPath.move_isReturning, hret]
          simp
  | engine axe actor mesh path cam fwd rot =>
    simp [step] at h
    subst h
    simpa using hP

/-- A property kept by every permitted call holds after every run of permitted
calls. -/
theorem run_induction_of (P : Character → Prop) (ok : Step → Bool)
    (hstep : ∀ s st s1, P s → ok st = true → step s st = some s1 → P s1) :
    ∀ (steps : List Step) (s s2 : Character),
      P s → steps.all ok = true → run s steps = some s2 → P s2 := by
  intro steps
  induction steps with
  | nil =>
    intro s s2 hP _ h
    simp [run] at h
    exact h ▸ hP
  | cons st rest ih =>
    intro s s2 hP hok h
    obtain ⟨s1, h1, h2⟩ := (run_cons s st rest s2).mp h
    simp only [List.all_cons, Bool.and_eq_true] at hok
    exact ih s1 s2 (hstep s st s1 hP hok.1 h1) hok.2 h2

/-- When return requests come through `Attack` only, a character in hand is
never returning: kept by every such call. -/
theorem in_hand_not_returning_step (s : Character) (st : Step) (s1 : Character)
    (hP : s.InHand = true → s.isReturning = false) (hok : st.viaInput = true)
    (h : step s st = some s1) :
    s1.InHand = true → s1.isReturning = false := by
  cases st with
  | throwAxe spawned =>
    simp [step, ThrowAxe] at h
    subst h
    simp
  | returnAxe => simp [Step.viaInput] at hok
  | attack CanJump =>
    cases CanJump with
    | false =>
      simp [step, Attack] at h
      subst h
      simpa using hP
    | true =>
      cases hin : s.InHand with
      | false =>
        cases hax : s.ThrownAxe with
        | none => simp [step, Attack, ReturnAxe, hin, hax] at h
        | some axe =>
          simp [step, Attack, ReturnAxe, hin, hax] at h
          subst h
          simp [hin]
      | true =>
        simp [step, Attack, RotateToCameraForward, hin] at h
        subst h
        simpa [hin] using hP
  | tick dt =>
    simp only [step, Option.some.injEq] at h
    subst h
    cases hret : s.isReturning with
    | false =>
      rw [Tick_not_returning s dt hret]
      intro _
      exact hret
    | true =>
      have hin : s.InHand = false := by
        cases hin : s.InHand with
        | false => rfl
        | true => rw [hP hin] at hret; simp at hret
      cases hax : s.ThrownAxe with
      | none =>
        have hT : Tick s dt = s := by simp [Tick, AxeReturnPath, hret, hax]
        rw [hT, hin]
        simp
      | some axe =>
        rw [Tick_returning s axe dt hret hax]
        unfold AxeReturnPath.catch
        split
        · simp
        · unfold AxeReturnPath.move
          split <;> simp [hin]
  | engine axe actor mesh path cam fwd rot =>
    simp [step] at h
    subst h
    simpa using hP

/-- Any call that takes a thrown character (`InHand` and `isReturning` both
clear) to one with `isReturning` set has captured the position of the projectile and
written neither `InHand` nor the progress. -/
theorem return_transition_step (s : Character) (st : Step) (s1 : Character)
    (h : step s st = some s1) (hIn : s.InHand = false) (hRet : s.isReturning = false)
    (hRet1 : s1.isReturning = true) :
    s1.InHand = false ∧ s1.time = s.time ∧
      ∃ axe, s.ThrownAxe = some axe ∧ s1.initialAxePos = axe.location := by
  cases st with
  | throwAxe spawned =>
    simp [step, ThrowAxe] at h
    subst h
    simp [hRet] at hRet1
  | returnAxe =>
    simp only [step, ReturnAxe] at h
    cases hax : s.ThrownAxe with
    | none => simp [hax] at h
    | some axe =>
      simp [hax] at h
      subst h
      simp [hIn]
  | attack CanJump =>
    cases CanJump with
    | false =>
      simp [step, Attack] at h
      subst h
      simp [hRet] at hRet1
    | true =>
      cases hax : s.ThrownAxe with
      | none => simp [step, Attack, ReturnAxe, hIn, hax] at h
      | some axe =>
        simp [step, Attack, ReturnAxe, hIn, hax] at h
        subst h
        simp [hIn]
  | tick dt =>
    simp only [step, Option.some.injEq] at h
    subst h
    rw [Tick_not_returning s dt hRet, hRet] at hRet1
    simp at hRet1
  | engine axe actor mesh path cam fwd rot =>
    simp [step] at h
    subst h
    simp [hRet] at hRet1

/-- C9: in every state reached from an initial state (in hand, not returning,
progress `0`) by any sequence of `ThrowAxe`, `ReturnAxe`, `Attack`, `Tick` and
engine moves, the progress is `0` whenever `isReturning` is clear; `ReturnAxe`
never writes the progress; and every call that takes the thrown character
(`InHand` clear, `isReturning` clear) to `isReturning` set enters the return
with `InHand` clear, progress `0`, and `initialAxePos` equal to the position
of the projectile at that instant.  When the return requests of the run come
through `Attack`, `isReturning` is set only with `InHand` clear, so the progress
is `0` in every state other than (`InHand` clear, `isReturning` set). -/
theorem return_entered_with_zero_progress (s0 : Character) (steps : List Step)
    (s : Character) (hIn0 : s0.InHand = true) (hRet0 : s0.isReturning = false)
    (ht0 : s0.time = 0) (hrun : run s0 steps = some s) :
    (s.isReturning = false → s.time = 0) ∧
    (∀ s1, ReturnAxe s = some s1 → s1.time = s.time) ∧
    (∀ st s1, step s st = some s1 → s.InHand = false → s.isReturning = false →
      s1.isReturning = true →
      s1.InHand = false ∧ s1.time = 0 ∧
        ∃ axe, s.ThrownAxe = some axe ∧ s1.initialAxePos = axe.location) ∧
    (returnsViaAttack steps = true →
      ¬ (s.InHand = false ∧ s.isReturning = true) → s.time = 0) := by
  have hinv : s.isReturning = false → s.time = 0 :=
    run_induction (fun c => c.isReturning = false → c.time = 0)
      (fun c st c1 hP h => idle_progress_step c st c1 hP h) steps s0 s (fun _ => ht0) hrun
  refine ⟨hinv, ?_, ?_, ?_⟩
  · intro s1 h
    simp only [ReturnAxe] at h
    split at h
    · simp at h
    · simp at h
      subst h
      rfl
  · intro st s1 h hIn hRet hRet1
    obtain ⟨h1, h2, h3⟩ := return_transition_step s st s1 h hIn hRet hRet1
    exact ⟨h1, by rw [h2, hinv hRet], h3⟩
  · intro hvia hphase
    have hJ : s.InHand = true → s.isReturning = false :=
      run_induction_of (fun c => c.InHand = true → c.isReturning = false) Step.viaInput
        (fun c st c1 hP hok h => in_hand_not_returning_step c st c1 hP hok h)
        steps s0 s (fun _ => hRet0) hvia hrun
    apply hinv
    cases hret : s.isReturning with
    | false => rfl
    | true =>
      cases hin : s.InHand with
      | false => exact absurd ⟨hin, hret⟩ hphase
      | true => rw [hJ hin] at hret; simp at hret

/-- Witness for C9: `demoCaught`, reached from `demoCharacter` by a throw, a
return request and a frame of a full time unit. -/
theorem return_entered_with_zero_progress_witness :
    demoCharacter.InHand = true ∧ demoCharacter.isReturning = false ∧
      demoCharacter.time = 0 ∧
      run demoCharacter [Step.throwAxe (some demoAxe), Step.returnAxe, Step.tick 1]
        = some demoCaught ∧
      (demoCaught.isReturning = false → demoCaught.time = 0) :=
  have hrun : run demoCharacter [Step.throwAxe (some demoAxe), Step.returnAxe, Step.tick 1]
      = some demoCaught := by
    norm_num [run, step, ThrowAxe, ReturnAxe, Tick, AxeReturnPath, AxeReturnPath.move,
      AxeReturnPath.catch, demoCharacter, demoAxe, demoCaught, spawnCharacter, BQCurvePath,
      FVector.add_def, FVector.smul_def, FVector.mul_def]
  ⟨rfl, rfl, rfl, hrun,
    (return_entered_with_zero_progress demoCharacter _ demoCaught rfl rfl rfl hrun).1⟩

/-- The bound on the progress and on the recorded curve arguments is kept by
every call whose frame time, if it is a `Tick`, is non-negative. -/
theorem unit_interval_step (s : Character) (st : Step) (s1 : Character)
    (hP : (0 ≤ s.time ∧ s.time < 1) ∧
      ∀ t, Event.callBQCurvePath t ∈ s.events → 0 ≤ t ∧ t ≤ 1)
    (hnn : st.nonneg = true) (h : step s st = some s1) :
    (0 ≤ s1.time ∧ s1.time < 1) ∧
      ∀ t, Event.callBQCurvePath t ∈ s1.events → 0 ≤ t ∧ t ≤ 1 := by
  obtain ⟨⟨h0, h1⟩, hev⟩ := hP
  cases st with
  | throwAxe spawned =>
    simp [step, ThrowAxe] at h
    subst h
    exact ⟨⟨h0, h1⟩, by simpa using hev⟩
  | returnAxe =>
    simp only [step, ReturnAxe] at h
    split at h
    · simp at h
    · simp at h
      subst h
      exact ⟨⟨h0, h1⟩, hev⟩
  | attack CanJump =>
    cases CanJump with
    | false =>
      simp [step, Attack] at h
      subst h
      exact ⟨⟨h0, h1⟩, by simpa using hev⟩
    | true =>
      cases hin : s.InHand with
      | false =>
        cases hax : s.ThrownAxe with
        | none => simp [step, Attack, ReturnAxe, hin, hax] at h
        | some axe =>
          simp [step, Attack, ReturnAxe, hin, hax] at h
          subst h
          exact ⟨⟨h0, h1⟩, by simpa using hev⟩
      | true =>
        simp [step, Attack, RotateToCameraForward, hin] at h
        subst h
        exact ⟨⟨h0, h1⟩, by simpa using hev⟩
  | tick dt =>
    have hdt : 0 ≤ dt := by simpa [Step.nonneg] using hnn
    simp only [step, Option.some.injEq] at h
    subst h
    cases hret : s.isReturning with
    | false =>
      rw [Tick_not_returning s dt hret]
      exact ⟨⟨h0, h1⟩, hev⟩
    | true =>
      cases hax : s.ThrownAxe with
      | none =>
        have hT : Tick s dt = s := by simp [Tick, AxeReturnPath, hret, hax]
        rw [hT]
        exact ⟨⟨h0, h1⟩, hev⟩
      | some axe =>
        rw [Tick_returning s axe dt hret hax]
        have hle : s.time ≤ 1 := le_of_lt h1
        by_cases hge : 1 ≤ s.time + dt
        · simp only [AxeReturnPath.catch, AxeReturnPath.move, hle, if_true, ge_iff_le, hge]
          refine ⟨⟨le_refl 0, zero_lt_one⟩, ?_⟩
          intro t ht
          simp at ht
          rcases ht with ht | ht
          · exact hev t ht
          · subst ht
            exact ⟨h0, hle⟩
        · simp only [AxeReturnPath.catch, AxeReturnPath.move, hle, if_true, ge_iff_le, hge,
            if_false]
          refine ⟨⟨by linarith, not_le.mp hge⟩, ?_⟩
          intro t ht
          simp at ht
          rcases ht with ht | ht
          · exact hev t ht
          · subst ht
            exact ⟨h0, hle⟩
  | engine axe actor mesh path cam fwd rot =>
    simp [step] at h
    subst h
    exact ⟨⟨h0, h1⟩, hev⟩

/-- The bound of `unit_interval_step` holds after every run whose frame times
are non-negative. -/
theorem unit_interval_run (steps : List Step) :
    ∀ (s s2 : Character),
      ((0 ≤ s.time ∧ s.time < 1) ∧
        ∀ t, Event.callBQCurvePath t ∈ s.events → 0 ≤ t ∧ t ≤ 1) →
      nonnegTicks steps = true → run s steps = some s2 →
      ((0 ≤ s2.time ∧ s2.time < 1) ∧
        ∀ t, Event.callBQCurvePath t ∈ s2.events → 0 ≤ t ∧ t ≤ 1) := by
  induction steps with
  | nil =>
    intro s s2 hP _ h
    simp [run] at h
    exact h ▸ hP
  | cons st rest ih =>
    intro s s2 hP hnn h
    obtain ⟨s1, h1, h2⟩ := (run_cons s st rest s2).mp h
    simp only [nonnegTicks, List.all_cons, Bool.and_eq_true] at hnn
    exact ih s1 s2 (unit_interval_step s st s1 hP hnn.1 h1) (by simpa [nonnegTicks] using hnn.2) h2

/-- C10: after every sequence of `ThrowAxe`, `ReturnAxe`, `Attack`, `Tick` and
engine moves in which every frame time is non-negative, started from an
initial state with progress `0` and nothing recorded, the progress lies in
`[0, 1]` (it is in fact below `1`), and every argument `t` with which
`AxeReturnPath` has called `BQCurvePath` lies in `[0, 1]`. -/
theorem progress_in_unit_interval (s0 : Character) (steps : List Step) (s : Character)
    (ht0 : s0.time = 0) (hev0 : s0.events = []) (hnn : nonnegTicks steps = true)
    (hrun : run s0 steps = some s) :
    (0 ≤ s.time ∧ s.time ≤ 1) ∧ s.time < 1 ∧
      ∀ t, Event.callBQCurvePath t ∈ s.events → 0 ≤ t ∧ t ≤ 1 := by
  have h := unit_interval_run steps s0 s
    ⟨⟨by rw [ht0], by rw [ht0]; exact zero_lt_one⟩, by simp [hev0]⟩ hnn hrun
  exact ⟨⟨h.1.1, le_of_lt h.1.2⟩, h.1.2, h.2⟩

/-- Witness for C10: `demoReturning`, reached from `demoCharacter` by
`demoCalls`, whose two frame times are `2/5`. -/
theorem progress_in_unit_interval_witness :
    demoCharacter.time = 0 ∧ demoCharacter.events = [] ∧ nonnegTicks demoCalls = true ∧
      run demoCharacter demoCalls = some demoReturning ∧
      (0 ≤ demoReturning.time ∧ demoReturning.time ≤ 1) :=
  have hnn : nonnegTicks demoCalls = true := by
    norm_num [nonnegTicks, demoCalls, Step.nonneg]
  ⟨rfl, rfl, hnn, demoReturning_reached,
    (progress_in_unit_interval demoCharacter demoCalls demoReturning rfl rfl hnn
      demoReturning_reached).1⟩

/-! ## Rounding to binary32 -/

/-- The exponent of a value inside the binade `[2^e, 2^(e+1))`. -/
theorem f32exponent_eq (x : ℚ) (e : ℤ) (he : -126 ≤ e) (h1 : (2 : ℚ) ^ e ≤ |x|)
    (h2 : |x| < (2 : ℚ) ^ (e + 1)) : f32exponent x = e := by
  have hpos : (0 : ℚ) < |x| := lt_of_lt_of_le (zpow_pos (by norm_num) e) h1
  have hlog : Int.log 2 |x| = e := by
    apply le_antisymm
    · have h := (Int.lt_zpow_iff_log_lt (b := 2) (by norm_num) hpos (x := e + 1)).mp
        (by exact_mod_cast h2)
      omega
    · exact (Int.zpow_le_iff_le_log (b := 2) (by norm_num) hpos (x := e)).mp
        (by exact_mod_cast h1)
  unfold f32exponent
  rw [hlog]
  exact max_eq_left he

/-- A value less than half a unit above the integer `f` rounds to `f`. -/
theorem roundHalfEven_of_lt (y : ℚ) (f : ℤ) (h0 : (f : ℚ) ≤ y) (h1 : y - f < 1 / 2) :
    roundHalfEven y = f := by
  have hf : ⌊y⌋ = f := Int.floor_eq_iff.mpr ⟨h0, by linarith⟩
  simp only [roundHalfEven, hf, h1, if_true]

/-- A value half a unit above the odd integer `f` rounds up, to the even
neighbour. -/
theorem roundHalfEven_tie_odd (y : ℚ) (f : ℤ) (h : y = f + 1 / 2) (hodd : f % 2 = 1) :
    roundHalfEven y = f + 1 := by
  have hf : ⌊y⌋ = f := Int.floor_eq_iff.mpr ⟨by linarith, by linarith⟩
  have h1 : ¬ (y - f < 1 / 2) := by rw [h]; norm_num
  have h2 : ¬ (1 / 2 < y - f) := by rw [h]; norm_num
  have h3 : ¬ (f % 2 = 0) := by omega
  simp only [roundHalfEven, hf, h1, h2, h3, if_false]

/-- Rounding of a value whose binade and rounded significand are known. -/
theorem f32round_eq (x : ℚ) (e m : ℤ) (he : -126 ≤ e) (h1 : (2 : ℚ) ^ e ≤ |x|)
    (h2 : |x| < (2 : ℚ) ^ (e + 1)) (hm : roundHalfEven (x / 2 ^ (e - 23)) = m) :
    f32round x = (m : ℚ) * 2 ^ (e - 23) := by
  unfold f32round
  rw [f32exponent_eq x e he h1 h2, hm]

/-- The value `1 - 2^-24` is a binary32 value. -/
theorem f32round_frameNearOne : f32round frameNearOne = frameNearOne := by
  rw [f32round_eq frameNearOne (-1) 16777215 (by norm_num)
    (by norm_num [frameNearOne, abs_of_pos]) (by norm_num [frameNearOne, abs_of_pos])
    (roundHalfEven_of_lt _ 16777215 (by norm_num [frameNearOne, zpow_neg])
      (by norm_num [frameNearOne, zpow_neg]))]
  norm_num [frameNearOne, zpow_neg]

/-- The value `2^-25` is a binary32 value. -/
theorem f32round_frameHalfUlp : f32round frameHalfUlp = frameHalfUlp := by
  rw [f32round_eq frameHalfUlp (-25) 8388608 (by norm_num)
    (by norm_num [frameHalfUlp, abs_of_pos, zpow_neg])
    (by norm_num [frameHalfUlp, abs_of_pos, zpow_neg])
    (roundHalfEven_of_lt _ 8388608 (by norm_num [frameHalfUlp, zpow_neg])
      (by norm_num [frameHalfUlp, zpow_neg]))]
  norm_num [frameHalfUlp, zpow_neg]

/-- The value `2^-26` is a binary32 value. -/
theorem f32round_frameQuarterUlp : f32round frameQuarterUlp = frameQuarterUlp := by
  rw [f32round_eq frameQuarterUlp (-26) 8388608 (by norm_num)
    (by norm_num [frameQuarterUlp, abs_of_pos, zpow_neg])
    (by norm_num [frameQuarterUlp, abs_of_pos, zpow_neg])
    (roundHalfEven_of_lt _ 8388608 (by norm_num [frameQuarterUlp, zpow_neg])
      (by norm_num [frameQuarterUlp, zpow_neg]))]
  norm_num [frameQuarterUlp, zpow_neg]

/-- In binary32, `0 + (1 - 2^-24)` is `1 - 2^-24`. -/
theorem f32add_zero_frameNearOne : f32add 0 frameNearOne = frameNearOne := by
  unfold f32add
  rw [zero_add, f32round_frameNearOne]

/-- In binary32, `(1 - 2^-24) + 2^-25` is a tie between `1 - 2^-24` and `1`, and
rounds to `1`. -/
theorem f32add_frameNearOne_frameHalfUlp : f32add frameNearOne frameHalfUlp = 1 := by
  unfold f32add
  rw [f32round_eq _ (-1) (16777215 + 1) (by norm_num)
    (by norm_num [frameNearOne, frameHalfUlp, abs_of_pos])
    (by norm_num [frameNearOne, frameHalfUlp, abs_of_pos])
    (roundHalfEven_tie_odd _ 16777215 (by norm_num [frameNearOne, frameHalfUlp, zpow_neg])
      (by norm_num))]
  norm_num [zpow_neg]

/-- In binary32, `(1 - 2^-24) + 2^-26` rounds back down to `1 - 2^-24`. -/
theorem f32add_frameNearOne_frameQuarterUlp :
    f32add frameNearOne frameQuarterUlp = frameNearOne := by
  unfold f32add
  rw [f32round_eq _ (-1) 16777215 (by norm_num)
    (by norm_num [frameNearOne, frameQuarterUlp, abs_of_pos])
    (by norm_num [frameNearOne, frameQuarterUlp, abs_of_pos])
    (roundHalfEven_of_lt _ 16777215 (by norm_num [frameNearOne, frameQuarterUlp, zpow_neg])
      (by norm_num [frameNearOne, frameQuarterUlp, zpow_neg]))]
  norm_num [frameNearOne, zpow_neg]

/-! ## A return flight whose frame times sum to one -/

/-- Where the binary32 sum is the exact sum, `Tick32` is `Tick`. -/
theorem Tick32_eq_Tick (s : Character) (d : ℚ) (h : f32add s.time d = s.time + d) :
    Tick32 s d = Tick s d := by
  simp only [Tick32, Tick, AxeReturnPath32, AxeReturnPath, AxeReturnPath.move32,
    AxeReturnPath.move, h]

/-- A `Tick32` does nothing unless `isReturning` is set. -/
theorem Tick32_not_returning (s : Character) (dt : ℚ) (hRet : s.isReturning = false) :
    Tick32 s dt = s := by
  simp [Tick32, hRet]

/-- A frame that keeps the accumulated progress below `1` only moves the
projectile. -/
theorem Tick32_lt (s : Character) (axe : AActor) (d : ℚ)
    (hRet : s.isReturning = true) (hAxe : s.ThrownAxe = some axe) (hle : s.time ≤ 1)
    (hlt : f32add s.time d < 1) :
    Tick32 s d =
      { s with
        ThrownAxe := some { axe with
          location := BQCurvePath s.time s.initialAxePos s.AxePathLocation s.AxeMeshLocation
          RotationRate := s.AxeRotatingRate }
        time := f32add s.time d
        events := s.events ++
          [Event.callBQCurvePath s.time,
           Event.setActorLocation
             (BQCurvePath s.time s.initialAxePos s.AxePathLocation s.AxeMeshLocation),
           Event.setRotationRate s.AxeRotatingRate] } := by
  simp [Tick32, AxeReturnPath32, AxeReturnPath.catch, AxeReturnPath.move32, hRet, hAxe, hle,
    not_le.mpr hlt]

/-- A frame that brings the accumulated progress to `1` or beyond moves the
projectile and then performs the catch. -/
theorem Tick32_ge (s : Character) (axe : AActor) (d : ℚ)
    (hRet : s.isReturning = true) (hAxe : s.ThrownAxe = some axe) (hle : s.time ≤ 1)
    (hge : 1 ≤ f32add s.time d) :
    Tick32 s d =
      { s with
        ThrownAxe := some { axe with
          location := BQCurvePath s.time s.initialAxePos s.AxePathLocation s.AxeMeshLocation
          RotationRate := s.AxeRotatingRate
          destroyed := true }
        InHand := true
        AxeMeshVisible := true
        isReturning := false
        time := 0
        events := s.events ++
          [Event.callBQCurvePath s.time,
           Event.setActorLocation
             (BQCurvePath s.time s.initialAxePos s.AxePathLocation s.AxeMeshLocation),
           Event.setRotationRate s.AxeRotatingRate,
           Event.playCatchMontage, Event.destroyActor, Event.setVisibility true] } := by
  simp [Tick32, AxeReturnPath32, AxeReturnPath.catch, AxeReturnPath.move32, hRet, hAxe, hle,
    hge]

/-- Frames after the catch do nothing. -/
theorem ticks32_not_returning (dts : List ℚ) (s : Character)
    (hRet : s.isReturning = false) : ticks32 s dts = s := by
  induction dts with
  | nil => rfl
  | cons d rest ih =>
    simp only [ticks32, List.foldl_cons] at ih ⊢
    rw [Tick32_not_returning s d hRet]
    exact ih

theorem ticks32_cons (s : Character) (d : ℚ) (rest : List ℚ) :
    ticks32 s (d :: rest) = ticks32 (Tick32 s d) rest := rfl

theorem progress32_cons (p d : ℚ) (rest : List ℚ) :
    progress32 p (d :: rest) = progress32 (f32add p d) rest := rfl

/-- The general form of the flight: started returning with a non-null handle
from any progress below `1`. -/
theorem flight32_from (dts : List ℚ) :
    ∀ (s : Character) (axe : AActor),
      s.InHand = false → s.isReturning = true → s.ThrownAxe = some axe → s.time < 1 →
      CaughtAtFirstCrossing s dts := by
  induction dts with
  | nil =>
    intro s axe hIn hRet _ _
    refine ⟨?_, ?_⟩
    · intro n hn
      simp at hn
    · intro _ k _
      simp [ticks32, hIn, hRet]
  | cons d rest ih =>
    intro s axe hIn hRet hAxe hlt
    have hle : s.time ≤ 1 := le_of_lt hlt
    have hone : progress32 s.time (List.take 1 (d :: rest)) = f32add s.time d := rfl
    by_cases hge : 1 ≤ f32add s.time d
    · -- this frame brings the accumulated progress to `1` and catches
      have hT := Tick32_ge s axe d hRet hAxe hle hge
      have hRetT : (Tick32 s d).isReturning = false := by rw [hT]
      refine ⟨?_, ?_⟩
      · intro n hn hbefore _
        cases n with
        | succ m =>
          have h := hbefore 1 (by omega)
          rw [hone] at h
          exact absurd hge (not_le.mpr h)
        | zero =>
          refine ⟨?_, ?_, ?_, ?_, ?_, ?_, ?_, ?_, ?_⟩
          · intro k hk
            have : k = 0 := Nat.le_zero.mp hk
            subst this
            simp [ticks32, hIn, hRet]
          · simp only [List.take_succ_cons, List.take_zero, ticks32_cons]
            rw [hT]; rfl
          · simp only [List.take_succ_cons, List.take_zero, ticks32_cons]
            rw [hT]; rfl
          · simp only [List.take_succ_cons, List.take_zero, ticks32_cons]
            rw [hT]; rfl
          · simp only [List.take_succ_cons, List.take_zero, ticks32_cons]
            rw [hT]; rfl
          · simp only [List.take_succ_cons, List.take_zero, ticks32_cons]
            rw [hT]; rfl
          · simp only [List.take_succ_cons, List.take_zero, ticks32_cons]
            rw [hT]
            simp [ticks32, catchCount, List.count_append, List.count_cons]
          · intro k hk
            obtain ⟨j, rfl⟩ : ∃ j, k = j + 1 := ⟨k - 1, by omega⟩
            simp only [List.take_succ_cons, List.take_zero, ticks32_cons]
            rw [ticks32_not_returning _ _ hRetT]
            rfl
          · rw [ticks32_cons, ticks32_not_returning _ _ hRetT, hT]
            simp [catchCount, List.count_append, List.count_cons]
      · intro hnever
        have h := hnever 1 (by simp)
        rw [hone] at h
        exact absurd hge (not_le.mpr h)
    · -- this frame only moves the projectile; the rest of the flight follows
      have hlt1 : f32add s.time d < 1 := not_le.mp hge
      have hT := Tick32_lt s axe d hRet hAxe hle hlt1
      have hcc : catchCount (Tick32 s d) = catchCount s := by
        rw [hT]
        simp [catchCount, List.count_append, List.count_cons]
      have htime : (Tick32 s d).time = f32add s.time d := by rw [hT]
      have hInT : (Tick32 s d).InHand = false := by rw [hT]; exact hIn
      have hRetT : (Tick32 s d).isReturning = true := by rw [hT]; exact hRet
      have hAxeT : (Tick32 s d).ThrownAxe = some { axe with
          location := BQCurvePath s.time s.initialAxePos s.AxePathLocation s.AxeMeshLocation
          RotationRate := s.AxeRotatingRate } := by rw [hT]
      obtain ⟨ih1, ih2⟩ := ih (Tick32 s d) _ hInT hRetT hAxeT (by rw [htime]; exact hlt1)
      have hshift : ∀ k, progress32 (Tick32 s d).time (List.take k rest) =
          progress32 s.time (List.take (k + 1) (d :: rest)) := by
        intro k
        rw [htime, List.take_succ_cons, progress32_cons]
      refine ⟨?_, ?_⟩
      · intro n hn hbefore hcross
        cases n with
        | zero =>
          rw [hone] at hcross
          exact absurd hcross hge
        | succ m =>
          obtain ⟨h3, h4, h5, h6, h7, h8, h9, h10, h11⟩ :=
            ih1 m (by simpa using hn)
              (fun k hk => by rw [hshift]; exact hbefore (k + 1) (by omega))
              (by rw [hshift]; exact hcross)
          refine ⟨?_, ?_, ?_, ?_, ?_, ?_, ?_, ?_, ?_⟩
          · intro k hk
            cases k with
            | zero => simp [ticks32, hIn, hRet]
            | succ j =>
              simp only [List.take_succ_cons, ticks32_cons]
              have h := h3 j (by omega)
              rw [hcc] at h
              exact h
          · simpa only [List.take_succ_cons, ticks32_cons] using h4
          · simpa only [List.take_succ_cons, ticks32_cons] using h5
          · simpa only [List.take_succ_cons, ticks32_cons] using h6
          · simpa only [List.take_succ_cons, ticks32_cons] using h7
          · simpa only [List.take_succ_cons, ticks32_cons] using h8
          · rw [hcc] at h9
            simpa only [List.take_succ_cons, ticks32_cons] using h9
          · intro k hk
            obtain ⟨j, rfl⟩ : ∃ j, k = j + 1 := ⟨k - 1, by omega⟩
            simp only [List.take_succ_cons, ticks32_cons]
            exact h10 j (by omega)
          · rw [ticks32_cons, h11, hcc]
      · intro hnever k hk
        cases k with
        | zero => simp [ticks32, hIn, hRet]
        | succ j =>
          have hk1 : j ≤ rest.length := by simpa using hk
          have h := ih2
            (fun i hi => by
              rw [hshift]
              exact hnever (i + 1) (by simpa using hi))
            j hk1
          rw [hcc] at h
          simpa only [List.take_succ_cons, ticks32_cons] using h

/-- The state after a throw and a return request is `demoReturnStart`. -/
theorem demoReturnStart_reached :
    run demoCharacter [Step.throwAxe (some demoAxe), Step.returnAxe] = some demoReturnStart := by
  norm_num [run, step, ThrowAxe, ReturnAxe, demoCharacter, demoAxe, demoReturnStart,
    spawnCharacter, FVector.add_def, FVector.mul_def]

/-- The progress accumulated over the first two of `earlyFrames` is exactly `1`,
and below `1` before that. -/
theorem earlyFrames_progress :
    (∀ k, k ≤ 1 → progress32 0 (earlyFrames.take k) < 1) ∧
      progress32 0 (earlyFrames.take 2) = 1 := by
  have h1 : progress32 0 (earlyFrames.take 1) = frameNearOne := f32add_zero_frameNearOne
  have h2 : progress32 0 (earlyFrames.take 2) = 1 := by
    show f32add (f32add 0 frameNearOne) frameHalfUlp = 1
    rw [f32add_zero_frameNearOne, f32add_frameNearOne_frameHalfUlp]
  refine ⟨?_, h2⟩
  intro k hk
  interval_cases k
  · show (0 : ℚ) < 1
    norm_num
  · rw [h1]
    norm_num [frameNearOne]

/-- The progress accumulated over `stuckFrames` never leaves `1 - 2^-24`. -/
theorem stuckFrames_progress :
    ∀ k, k ≤ 5 → progress32 0 (stuckFrames.take k) < 1 := by
  have hA : frameNearOne < 1 := by norm_num [frameNearOne]
  have h1 : progress32 0 (stuckFrames.take 1) = frameNearOne := f32add_zero_frameNearOne
  have h2 : progress32 0 (stuckFrames.take 2) = frameNearOne := by
    show f32add (f32add 0 frameNearOne) frameQuarterUlp = frameNearOne
    rw [f32add_zero_frameNearOne, f32add_frameNearOne_frameQuarterUlp]
  have h3 : progress32 0 (stuckFrames.take 3) = frameNearOne := by
    show f32add (f32add (f32add 0 frameNearOne) frameQuarterUlp) frameQuarterUlp
      = frameNearOne
    rw [f32add_zero_frameNearOne, f32add_frameNearOne_frameQuarterUlp,
      f32add_frameNearOne_frameQuarterUlp]
  have h4 : progress32 0 (stuckFrames.take 4) = frameNearOne := by
    show f32add (f32add (f32add (f32add 0 frameNearOne) frameQuarterUlp) frameQuarterUlp)
      frameQuarterUlp = frameNearOne
    rw [f32add_zero_frameNearOne, f32add_frameNearOne_frameQuarterUlp,
      f32add_frameNearOne_frameQuarterUlp, f32add_frameNearOne_frameQuarterUlp]
  have h5 : progress32 0 (stuckFrames.take 5) = frameNearOne := by
    show f32add (f32add (f32add (f32add (f32add 0 frameNearOne) frameQuarterUlp)
      frameQuarterUlp) frameQuarterUlp) frameQuarterUlp = frameNearOne
    rw [f32add_zero_frameNearOne, f32add_frameNearOne_frameQuarterUlp,
      f32add_frameNearOne_frameQuarterUlp, f32add_frameNearOne_frameQuarterUlp,
      f32add_frameNearOne_frameQuarterUlp]
  intro k hk
  interval_cases k
  · show (0 : ℚ) < 1
    norm_num
  · rw [h1]; exact hA
  · rw [h2]; exact hA
  · rw [h3]; exact hA
  · rw [h4]; exact hA
  · rw [h5]; exact hA

/-- C3 fails as stated.  From `demoReturnStart` (returning, progress `0`,
projectile present), with `time` accumulated in binary32 as the code does:
the non-negative binary32 frame times `1 - 2^-24, 2^-25, 2^-25` sum to exactly
`1`, yet the second frame, after which the sum is still below `1`, already
performs the catch; and the non-negative binary32 frame times
`1 - 2^-24, 2^-26, 2^-26, 2^-26, 2^-26` sum to exactly `1`, yet after all five
frames the character is still returning and no catch cue has been fired. -/
theorem flight32_rounding_moves_or_loses_the_catch :
    run demoCharacter [Step.throwAxe (some demoAxe), Step.returnAxe] = some demoReturnStart ∧
      demoReturnStart.InHand = false ∧ demoReturnStart.isReturning = true ∧
      demoReturnStart.time = 0 ∧ demoReturnStart.ThrownAxe = some demoAxe ∧
      (∀ d ∈ earlyFrames, 0 ≤ d ∧ f32round d = d) ∧
      earlyFrames.sum = 1 ∧ (earlyFrames.take 2).sum < 1 ∧
      (ticks32 demoReturnStart (earlyFrames.take 2)).InHand = true ∧
      (ticks32 demoReturnStart (earlyFrames.take 2)).isReturning = false ∧
      catchCount (ticks32 demoReturnStart (earlyFrames.take 2)) = 1 ∧
      (∀ d ∈ stuckFrames, 0 ≤ d ∧ f32round d = d) ∧
      stuckFrames.sum = 1 ∧
      (ticks32 demoReturnStart stuckFrames).InHand = false ∧
      (ticks32 demoReturnStart stuckFrames).isReturning = true ∧
      catchCount (ticks32 demoReturnStart stuckFrames) = 0 := by
  have hlt : demoReturnStart.time < 1 := by norm_num [demoReturnStart]
  have hflight := fun dts => flight32_from dts demoReturnStart demoAxe rfl rfl rfl hlt
  have hearly := (hflight earlyFrames).1 1 (by simp [earlyFrames])
    earlyFrames_progress.1 (le_of_eq earlyFrames_progress.2.symm)
  have hstuck := (hflight stuckFrames).2 stuckFrames_progress 5 (le_refl 5)
  have hcc0 : catchCount demoReturnStart = 0 := by
    simp [catchCount, demoReturnStart]
  have hrepA : (0 : ℚ) ≤ frameNearOne ∧ f32round frameNearOne = frameNearOne :=
    ⟨by norm_num [frameNearOne], f32round_frameNearOne⟩
  have hrepB : (0 : ℚ) ≤ frameHalfUlp ∧ f32round frameHalfUlp = frameHalfUlp :=
    ⟨by norm_num [frameHalfUlp], f32round_frameHalfUlp⟩
  have hrepC : (0 : ℚ) ≤ frameQuarterUlp ∧ f32round frameQuarterUlp = frameQuarterUlp :=
    ⟨by norm_num [frameQuarterUlp], f32round_frameQuarterUlp⟩
  refine ⟨demoReturnStart_reached, rfl, rfl, rfl, rfl, ?_, ?_, ?_, hearly.2.1, hearly.2.2.1,
    ?_, ?_, ?_, hstuck.1, hstuck.2.1, ?_⟩
  · intro d hd
    simp only [earlyFrames, List.mem_cons, List.mem_singleton, List.not_mem_nil, or_false]
      at hd
    rcases hd with h | h | h <;> rw [h] <;> assumption
  · norm_num [earlyFrames, frameNearOne, frameHalfUlp]
  · norm_num [earlyFrames, frameNearOne, frameHalfUlp]
  · rw [hearly.2.2.2.2.2.2.1, hcc0]
  · intro d hd
    simp only [stuckFrames, List.mem_cons, List.mem_singleton, List.not_mem_nil, or_false]
      at hd
    rcases hd with h | h | h | h | h <;> rw [h] <;> assumption
  · norm_num [stuckFrames, frameNearOne, frameQuarterUlp]
  · exact hstuck.2.2.trans hcc0

/-- C3 (amended): for every finite sequence of frame times, started returning
with progress `0` and a non-null projectile handle, with `time` accumulated in
binary32 as the code does, the flight is caught at most once and with no
intermediate skip, by the first frame that brings the accumulated progress to
`1` or more: the character is still returning (no catch fired) after every
earlier frame; that frame performs the catch transition (catch cue, projectile
destroyed, in-hand mesh shown, `InHand` set, `isReturning` cleared, progress
`0`); later frames change nothing, so exactly one catch cue is fired; and if
the accumulated progress never reaches `1`, the character is still returning
after every frame and no catch cue is fired. -/
theorem flight32_caught_at_first_crossing (s : Character) (axe : AActor) (dts : List ℚ)
    (hIn : s.InHand = false) (hRet : s.isReturning = true) (ht : s.time = 0)
    (hAxe : s.ThrownAxe = some axe) :
    CaughtAtFirstCrossing s dts :=
  flight32_from dts s axe hIn hRet hAxe (by rw [ht]; exact zero_lt_one)

/-- Witness for C3 (amended): the frames `1 - 2^-24, 2^-25, 2^-25` from
`demoReturnStart`. -/
theorem flight32_caught_at_first_crossing_witness :
    demoReturnStart.InHand = false ∧ demoReturnStart.isReturning = true ∧
      demoReturnStart.time = 0 ∧ demoReturnStart.ThrownAxe = some demoAxe ∧
      CaughtAtFirstCrossing demoReturnStart earlyFrames :=
  ⟨rfl, rfl, rfl, rfl,
    flight32_caught_at_first_crossing demoReturnStart demoAxe earlyFrames rfl rfl rfl rfl⟩

end GameplayMechanics
